import Mathlib

/-!
Shallow embedding of the matchmaking / signaling-relay server
(`waitingQueue`, `peers`, `userInfo` and the socket event handlers of the
Node server source), together with proofs about its behaviour.

Modelling conventions:
* Socket identifiers are `Nat` (they are opaque in the source).
* Signaling payloads are relayed without inspection, so they are modelled by
  an opaque stand-in type (`Payload := Nat`); all theorems quantify over it.
* JavaScript `Map` is modelled by an association list with JS `get`/`set`/
  `delete` observational semantics (`mapGet`, `mapSet`, `mapDel`).
* `io.to(target).emit(ev)` delivers `ev` exactly when `target` is a live
  socket; delivered events are accumulated in `ServerState.emitted`.
* The transport removes a socket from the live registry
  (`io.sockets.sockets`) before running its `disconnect` handler, so
  `disconnectH` removes the id from `connected` first.
* Each inbound event may carry the wall-clock time at which it happens;
  the `find-next` handler receives it but (like the source) never reads it.
-/

set_option linter.unusedVariables false

namespace Anologia

abbrev Id := Nat

/-- Opaque relayed signaling payload. -/
abbrev Payload := Nat

/-- The `user` object built on connect: `{ socketId, joinedAt, userAgent }`.
The `userAgent` metadata is only ever logged, so it is omitted. -/
structure User where
  socketId : Id
  joinedAt : Nat
  deriving Repr, DecidableEq

/-- The events the server emits to clients. -/
inductive ServerEvent where
  | matchFound (peerSocketId : Id) (isInitiator : Bool)
  | waitingForPeer
  | peerDisconnected
  | signal (payload : Payload)
  | errorMsg (message : String)
  deriving Repr, DecidableEq

/-- JS `Map.get`: value of the first (unique) entry with the given key. -/
def mapGet {α : Type} : List (Id × α) → Id → Option α
  | [], _ => none
  | (k, v) :: rest, k' => if k' = k then some v else mapGet rest k'

/-- JS `Map.set`: replace the entry in place, or append a fresh one. -/
def mapSet {α : Type} : List (Id × α) → Id → α → List (Id × α)
  | [], k0, v0 => [(k0, v0)]
  | (k, v) :: rest, k0, v0 =>
    if k = k0 then (k0, v0) :: rest else (k, v) :: mapSet rest k0 v0

/-- JS `Map.delete`. -/
def mapDel {α : Type} : List (Id × α) → Id → List (Id × α)
  | [], _ => []
  | (k, v) :: rest, k0 =>
    if k = k0 then mapDel rest k0 else (k, v) :: mapDel rest k0

/-- The whole mutable server state plus the log of delivered events. -/
structure ServerState where
  waitingQueue : List User
  peers : List (Id × Id)
  userInfo : List (Id × User)
  /-- the live sockets, `io.sockets.sockets` -/
  connected : List Id
  /-- events delivered to clients, in order, as (target, event) -/
  emitted : List (Id × ServerEvent)
  deriving Repr, DecidableEq

def initState : ServerState :=
  { waitingQueue := [], peers := [], userInfo := [], connected := [], emitted := [] }

/-- `io.to(target).emit(ev)`: delivered only to a live socket. -/
def emitTo (s : ServerState) (target : Id) (ev : ServerEvent) : ServerState :=
  if target ∈ s.connected then
    { s with emitted := s.emitted ++ [(target, ev)] }
  else s

/-- `waitingQueue.push(user)`. -/
def enqueue (user : User) (queue : List User) : List User :=
  queue ++ [user]

/-- `findMatch(currentSocketId)`: returns `null` on an empty queue, else
`waitingQueue.shift()` — the head entry; the current socket id argument is
taken but never used by the source. -/
def findMatch (currentSocketId : Id) (queue : List User) :
    Option (User × List User) :=
  match queue with
  | [] => none
  | matchedUser :: rest => some (matchedUser, rest)

/-- `cleanupUser(socketId)`: drop the pairing (both directions), the queue
entry and the user info of `socketId`. -/
def cleanupUser (socketId : Id) (s : ServerState) : ServerState :=
  let s :=
    match mapGet s.peers socketId with
    | some peerSocketId =>
      { s with peers := mapDel (mapDel s.peers peerSocketId) socketId }
    | none => s
  { s with
    waitingQueue := s.waitingQueue.filter (fun user => user.socketId != socketId),
    userInfo := mapDel s.userInfo socketId }

/-- Queue-sweep age limit: `5 * 60 * 1000` ms. -/
def QUEUE_TIMEOUT : Nat := 5 * 60 * 1000

/-- Sweep period: every `60000` ms. -/
def SWEEP_INTERVAL : Nat := 60000

/-- The `io.on("connection")` handler: register the user, then try an
immediate match; on success pair both sides and notify them (queue side is
the initiator), otherwise push onto the waiting queue. -/
def connectH (id : Id) (joinedAt : Nat) (s : ServerState) : ServerState :=
  let user : User := { socketId := id, joinedAt := joinedAt }
  let s := { s with
    userInfo := mapSet s.userInfo id user,
    connected := id :: s.connected }
  match findMatch id s.waitingQueue with
  | some (matchedUser, rest) =>
    let peerSocketId := matchedUser.socketId
    let s := { s with
      waitingQueue := rest,
      peers := mapSet (mapSet s.peers id peerSocketId) peerSocketId id }
    let s := emitTo s peerSocketId (ServerEvent.matchFound id true)
    emitTo s id (ServerEvent.matchFound peerSocketId false)
  | none =>
    let s := { s with waitingQueue := enqueue user s.waitingQueue }
    emitTo s id ServerEvent.waitingForPeer

/-- The `socket.on("signal")` handler: forward the payload unchanged to the
partner when one exists and is live, otherwise send an error event back. -/
def signalH (id : Id) (payload : Payload) (s : ServerState) : ServerState :=
  match mapGet s.peers id with
  | some peerSocketId =>
    if peerSocketId ∈ s.connected then
      emitTo s peerSocketId (ServerEvent.signal payload)
    else
      emitTo s id (ServerEvent.errorMsg "No active peer connection")
  | none => emitTo s id (ServerEvent.errorMsg "No active peer connection")

/-- The `socket.on("find-next")` handler: tear down the current pairing (if
any, notifying the old partner), then retry the matching policy; on failure
re-push the `user` object captured at connect time (its stored `joinedAt`
is the original connect time).  `now` is the wall-clock time of the event;
the source never reads it. -/
def findNextH (id : Id) (now : Nat) (s : ServerState) : ServerState :=
  let s :=
    match mapGet s.peers id with
    | some currentPeer =>
      let s := emitTo s currentPeer ServerEvent.peerDisconnected
      { s with peers := mapDel (mapDel s.peers currentPeer) id }
    | none => s
  match findMatch id s.waitingQueue with
  | some (matchedUser, rest) =>
    let newPeerSocketId := matchedUser.socketId
    let s := { s with
      waitingQueue := rest,
      peers := mapSet (mapSet s.peers id newPeerSocketId) newPeerSocketId id }
    let s := emitTo s newPeerSocketId (ServerEvent.matchFound id true)
    emitTo s id (ServerEvent.matchFound newPeerSocketId false)
  | none =>
    match mapGet s.userInfo id with
    | some user =>
      let s := { s with waitingQueue := enqueue user s.waitingQueue }
      emitTo s id ServerEvent.waitingForPeer
    | none => s

/-- The `socket.on("disconnect")` handler: the transport has already removed
the socket from the live registry; notify a live partner, then clean up. -/
def disconnectH (id : Id) (s : ServerState) : ServerState :=
  let s := { s with connected := s.connected.erase id }
  let s :=
    match mapGet s.peers id with
    | some peerSocketId =>
      if peerSocketId ∈ s.connected then
        emitTo s peerSocketId ServerEvent.peerDisconnected
      else s
    | none => s
  cleanupUser id s

/-- The periodic sweep: drop queue entries with `now - joinedAt > timeout`. -/
def sweepH (now : Nat) (s : ServerState) : ServerState :=
  { s with waitingQueue := s.waitingQueue.filter (fun user => !(decide (now - user.joinedAt > QUEUE_TIMEOUT))) }

/-- The states the server can reach from startup under any sequence of
connect, signal, find-next, disconnect and sweep events.  A connect brings a
fresh transport-assigned id; the other socket events come from currently
live sockets. -/
inductive Reachable : ServerState → Prop where
  | init : Reachable initState
  | connect {s : ServerState} (h : Reachable s) (id : Id) (t : Nat) (hid : id ∉ s.connected) :
      Reachable (connectH id t s)
  | signal {s : ServerState} (h : Reachable s) (id : Id) (p : Payload) (hid : id ∈ s.connected) :
      Reachable (signalH id p s)
  | findNext {s : ServerState} (h : Reachable s) (id : Id) (now : Nat) (hid : id ∈ s.connected) :
      Reachable (findNextH id now s)
  | disconnect {s : ServerState} (h : Reachable s) (id : Id) (hid : id ∈ s.connected) :
      Reachable (disconnectH id s)
  | sweep {s : ServerState} (h : Reachable s) (now : Nat) : Reachable (sweepH now s)

/-- Number of queue entries held by a given connection id. -/
def queuedCount (s : ServerState) (id : Id) : Nat :=
  (s.waitingQueue.filter (fun u => u.socketId == id)).length

/-! ### Association-map lemmas -/

theorem mapGet_set {α : Type} (m : List (Id × α)) (k : Id) (v : α) (q : Id) :
    mapGet (mapSet m k v) q = if q = k then some v else mapGet m q := by
  induction m with
  | nil => by_cases h : q = k <;> simp [mapSet, mapGet, h]
  | cons e rest ih =>
    obtain ⟨k0, v0⟩ := e
    by_cases h0 : k0 = k
    · subst h0
      by_cases h1 : q = k0 <;> simp_all [mapSet, mapGet]
    · have h0' : ¬ (k = k0) := fun h => h0 h.symm
      by_cases h1 : q = k0
      · subst h1
        simp_all [mapSet, mapGet]
      · simp_all [mapSet, mapGet]

theorem mapGet_del {α : Type} (m : List (Id × α)) (k : Id) (q : Id) :
    mapGet (mapDel m k) q = if q = k then none else mapGet m q := by
  induction m with
  | nil => by_cases h : q = k <;> simp [mapDel, mapGet, h]
  | cons e rest ih =>
    obtain ⟨k0, v0⟩ := e
    by_cases h0 : k0 = k
    · subst h0
      by_cases h1 : q = k0 <;> simp_all [mapDel, mapGet]
    · have h0' : ¬ (k = k0) := fun h => h0 h.symm
      by_cases h1 : q = k0
      · subst h1
        simp_all [mapDel, mapGet]
      · simp_all [mapDel, mapGet]

/-- Lookup after pairing `i ↔ p` the way the handlers do it. -/
theorem mapGet_pair (m : List (Id × Id)) (i p q : Id) :
    mapGet (mapSet (mapSet m i p) p i) q =
      if q = p then some i else if q = i then some p else mapGet m q := by
  simp [mapGet_set]

/-- Lookup after unpairing `i ↔ p` the way the handlers do it. -/
theorem mapGet_unpair (m : List (Id × Id)) (p i q : Id) :
    mapGet (mapDel (mapDel m p) i) q =
      if q = i then none else if q = p then none else mapGet m q := by
  simp [mapGet_del]

/-! ### Branch equations for the handlers -/

theorem connectH_empty (id : Id) (t : Nat) (s : ServerState)
    (hq : s.waitingQueue = []) :
    connectH id t s =
      { waitingQueue := [{ socketId := id, joinedAt := t }],
        peers := s.peers,
        userInfo := mapSet s.userInfo id { socketId := id, joinedAt := t },
        connected := id :: s.connected,
        emitted := s.emitted ++ [(id, ServerEvent.waitingForPeer)] } := by
  simp [connectH, hq, findMatch, enqueue, emitTo]

theorem connectH_match (id : Id) (t : Nat) (s : ServerState) (u : User)
    (rest : List User) (hq : s.waitingQueue = u :: rest)
    (hu : u.socketId ∈ s.connected) :
    connectH id t s =
      { waitingQueue := rest,
        peers := mapSet (mapSet s.peers id u.socketId) u.socketId id,
        userInfo := mapSet s.userInfo id { socketId := id, joinedAt := t },
        connected := id :: s.connected,
        emitted := s.emitted ++ [(u.socketId, ServerEvent.matchFound id true),
          (id, ServerEvent.matchFound u.socketId false)] } := by
  simp [connectH, hq, findMatch, emitTo, hu]

theorem signalH_none (id : Id) (p : Payload) (s : ServerState)
    (hp : mapGet s.peers id = none) (hid : id ∈ s.connected) :
    signalH id p s =
      { s with emitted :=
          s.emitted ++ [(id, ServerEvent.errorMsg "No active peer connection")] } := by
  simp [signalH, hp, emitTo, hid]

theorem signalH_dead (id : Id) (p : Payload) (s : ServerState) (cp : Id)
    (hp : mapGet s.peers id = some cp) (hcp : cp ∉ s.connected)
    (hid : id ∈ s.connected) :
    signalH id p s =
      { s with emitted :=
          s.emitted ++ [(id, ServerEvent.errorMsg "No active peer connection")] } := by
  simp [signalH, hp, emitTo, hid, hcp]

theorem signalH_live (id : Id) (p : Payload) (s : ServerState) (cp : Id)
    (hp : mapGet s.peers id = some cp) (hcp : cp ∈ s.connected) :
    signalH id p s =
      { s with emitted := s.emitted ++ [(cp, ServerEvent.signal p)] } := by
  simp [signalH, hp, emitTo, hcp]

theorem findNextH_unpaired_empty (id : Id) (now : Nat) (s : ServerState)
    (user : User) (hp : mapGet s.peers id = none) (hq : s.waitingQueue = [])
    (hui : mapGet s.userInfo id = some user) (hid : id ∈ s.connected) :
    findNextH id now s =
      { s with waitingQueue := [user],
               emitted := s.emitted ++ [(id, ServerEvent.waitingForPeer)] } := by
  simp [findNextH, hp, hq, findMatch, hui, enqueue, emitTo, hid]

theorem findNextH_unpaired_match (id : Id) (now : Nat) (s : ServerState)
    (u : User) (rest : List User) (hp : mapGet s.peers id = none)
    (hq : s.waitingQueue = u :: rest) (hu : u.socketId ∈ s.connected)
    (hid : id ∈ s.connected) :
    findNextH id now s =
      { s with waitingQueue := rest,
               peers := mapSet (mapSet s.peers id u.socketId) u.socketId id,
               emitted := s.emitted ++ [(u.socketId, ServerEvent.matchFound id true),
                 (id, ServerEvent.matchFound u.socketId false)] } := by
  simp [findNextH, hp, hq, findMatch, emitTo, hu, hid]

theorem findNextH_paired_empty (id : Id) (now : Nat) (s : ServerState)
    (cp : Id) (user : User) (hp : mapGet s.peers id = some cp)
    (hcp : cp ∈ s.connected) (hq : s.waitingQueue = [])
    (hui : mapGet s.userInfo id = some user) (hid : id ∈ s.connected) :
    findNextH id now s =
      { s with waitingQueue := [user],
               peers := mapDel (mapDel s.peers cp) id,
               emitted := s.emitted ++ [(cp, ServerEvent.peerDisconnected),
                 (id, ServerEvent.waitingForPeer)] } := by
  simp [findNextH, hp, hq, findMatch, hui, enqueue, emitTo, hcp, hid]

theorem findNextH_paired_match (id : Id) (now : Nat) (s : ServerState)
    (cp : Id) (u : User) (rest : List User) (hp : mapGet s.peers id = some cp)
    (hcp : cp ∈ s.connected) (hq : s.waitingQueue = u :: rest)
    (hu : u.socketId ∈ s.connected) (hid : id ∈ s.connected) :
    findNextH id now s =
      { s with waitingQueue := rest,
               peers := mapSet (mapSet (mapDel (mapDel s.peers cp) id) id u.socketId)
                 u.socketId id,
               emitted := s.emitted ++ [(cp, ServerEvent.peerDisconnected),
                 (u.socketId, ServerEvent.matchFound id true),
                 (id, ServerEvent.matchFound u.socketId false)] } := by
  simp [findNextH, hp, hq, findMatch, emitTo, hcp, hu, hid]

theorem disconnectH_unpaired (id : Id) (s : ServerState)
    (hp : mapGet s.peers id = none) :
    disconnectH id s =
      { s with waitingQueue := s.waitingQueue.filter (fun u => u.socketId != id),
               userInfo := mapDel s.userInfo id,
               connected := s.connected.erase id } := by
  simp [disconnectH, hp, cleanupUser]

theorem disconnectH_paired_live (id : Id) (s : ServerState) (cp : Id)
    (hp : mapGet s.peers id = some cp) (hcp : cp ∈ s.connected.erase id) :
    disconnectH id s =
      { s with waitingQueue := s.waitingQueue.filter (fun u => u.socketId != id),
               peers := mapDel (mapDel s.peers cp) id,
               userInfo := mapDel s.userInfo id,
               connected := s.connected.erase id,
               emitted := s.emitted ++ [(cp, ServerEvent.peerDisconnected)] } := by
  simp [disconnectH, hp, cleanupUser, emitTo, hcp]

theorem disconnectH_paired_dead (id : Id) (s : ServerState) (cp : Id)
    (hp : mapGet s.peers id = some cp) (hcp : cp ∉ s.connected.erase id) :
    disconnectH id s =
      { s with waitingQueue := s.waitingQueue.filter (fun u => u.socketId != id),
               peers := mapDel (mapDel s.peers cp) id,
               userInfo := mapDel s.userInfo id,
               connected := s.connected.erase id } := by
  simp [disconnectH, hp, cleanupUser, emitTo, hcp]

/-! ### The inductive invariant -/

/-- The state invariant maintained by every handler. -/
structure Inv (s : ServerState) : Prop where
  queue_len : s.waitingQueue.length ≤ 1
  queue_conn : ∀ u ∈ s.waitingQueue, u.socketId ∈ s.connected
  queue_ui : ∀ u ∈ s.waitingQueue, mapGet s.userInfo u.socketId = some u
  queue_unpaired : ∀ u ∈ s.waitingQueue, mapGet s.peers u.socketId = none
  peers_conn : ∀ a b, mapGet s.peers a = some b → a ∈ s.connected ∧ b ∈ s.connected
  peers_sym : ∀ a b, mapGet s.peers a = some b → mapGet s.peers b = some a
  ui_key : ∀ i u, mapGet s.userInfo i = some u → u.socketId = i
  conn_ui : ∀ i ∈ s.connected, ∃ u, mapGet s.userInfo i = some u
  conn_nodup : s.connected.Nodup

/-- Pairing two currently-unpaired ids keeps the table symmetric (also when
the two ids coincide). -/
theorem peersSym_pair {m : List (Id × Id)}
    (hsym : ∀ a b, mapGet m a = some b → mapGet m b = some a)
    (i p : Id) (hi : mapGet m i = none) (hp : mapGet m p = none) :
    ∀ a b, mapGet (mapSet (mapSet m i p) p i) a = some b →
      mapGet (mapSet (mapSet m i p) p i) b = some a := by
  intro a b hab
  rw [mapGet_pair] at hab ⊢
  by_cases hap : a = p
  · rw [if_pos hap] at hab
    injection hab with hb
    rw [← hb]
    by_cases hip : i = p
    · rw [if_pos hip, hip, hap]
    · rw [if_neg hip, if_pos rfl, hap]
  · rw [if_neg hap] at hab
    by_cases hai : a = i
    · rw [if_pos hai] at hab
      injection hab with hb
      rw [← hb, if_pos rfl, hai]
    · rw [if_neg hai] at hab
      have hba := hsym a b hab
      have hbp : ¬ (b = p) := by
        intro h
        rw [h, hp] at hba
        cases hba
      have hbi : ¬ (b = i) := by
        intro h
        rw [h, hi] at hba
        cases hba
      simp [hbp, hbi, hba]

/-- Removing a pairing (both directions) keeps the table symmetric. -/
theorem peersSym_unpair {m : List (Id × Id)}
    (hsym : ∀ a b, mapGet m a = some b → mapGet m b = some a)
    (i p : Id) (hip : mapGet m i = some p) :
    ∀ a b, mapGet (mapDel (mapDel m p) i) a = some b →
      mapGet (mapDel (mapDel m p) i) b = some a := by
  intro a b hab
  rw [mapGet_unpair] at hab ⊢
  by_cases hai : a = i
  · rw [if_pos hai] at hab
    cases hab
  rw [if_neg hai] at hab
  by_cases hap : a = p
  · rw [if_pos hap] at hab
    cases hab
  rw [if_neg hap] at hab
  have hba := hsym a b hab
  have hpi : mapGet m p = some i := hsym i p hip
  have hbi : ¬ (b = i) := by
    intro h
    subst h
    rw [hip] at hba
    exact hap (Option.some.inj hba).symm
  have hbp : ¬ (b = p) := by
    intro h
    subst h
    rw [hpi] at hba
    exact hai (Option.some.inj hba).symm
  simp [hbi, hbp, hba]

theorem inv_init : Inv initState := by
  constructor <;> simp [initState, mapGet]

/-- `signalH` only appends to the event log. -/
theorem signalH_fields (id : Id) (p : Payload) (s : ServerState) :
    (signalH id p s).waitingQueue = s.waitingQueue ∧
    (signalH id p s).peers = s.peers ∧
    (signalH id p s).userInfo = s.userInfo ∧
    (signalH id p s).connected = s.connected := by
  unfold signalH emitTo
  cases h : mapGet s.peers id <;> simp only [h] <;> (repeat' split) <;> simp

theorem inv_signal {s : ServerState} (hs : Inv s) (id : Id) (p : Payload) :
    Inv (signalH id p s) := by
  obtain ⟨h1, h2, h3, h4⟩ := signalH_fields id p s
  refine ⟨?_, ?_, ?_, ?_, ?_, ?_, ?_, ?_, ?_⟩
  · rw [h1]; exact hs.queue_len
  · rw [h1, h4]; exact hs.queue_conn
  · rw [h1, h3]; exact hs.queue_ui
  · rw [h1, h2]; exact hs.queue_unpaired
  · rw [h2, h4]; exact hs.peers_conn
  · rw [h2]; exact hs.peers_sym
  · rw [h3]; exact hs.ui_key
  · rw [h3, h4]; exact hs.conn_ui
  · rw [h4]; exact hs.conn_nodup

/-- Registering a fresh user keeps the key field of `userInfo` consistent. -/
theorem ui_key_set {s : ServerState} (hs : Inv s) (id : Id) (t : Nat) :
    ∀ i u, mapGet (mapSet s.userInfo id { socketId := id, joinedAt := t }) i = some u →
      u.socketId = i := by
  intro i u hi
  rw [mapGet_set] at hi
  by_cases hii : i = id
  · rw [if_pos hii] at hi
    injection hi with hw
    rw [← hw, hii]
  · rw [if_neg hii] at hi
    exact hs.ui_key i u hi

/-- Registering a fresh user keeps every live socket covered by `userInfo`. -/
theorem conn_ui_set {s : ServerState} (hs : Inv s) (id : Id) (t : Nat) :
    ∀ i ∈ (id :: s.connected), ∃ u,
      mapGet (mapSet s.userInfo id { socketId := id, joinedAt := t }) i = some u := by
  intro i hi
  by_cases hii : i = id
  · exact ⟨{ socketId := id, joinedAt := t }, by rw [mapGet_set, if_pos hii]⟩
  · rcases List.mem_cons.mp hi with h | h
    · exact absurd h hii
    · obtain ⟨u, hu⟩ := hs.conn_ui i h
      exact ⟨u, by rw [mapGet_set, if_neg hii]; exact hu⟩

theorem inv_connect {s : ServerState} (hs : Inv s) (id : Id) (t : Nat)
    (hid : id ∉ s.connected) : Inv (connectH id t s) := by
  have hidp : mapGet s.peers id = none := by
    cases hp : mapGet s.peers id with
    | none => rfl
    | some b => exact absurd (hs.peers_conn id b hp).1 hid
  rcases hq : s.waitingQueue with _ | ⟨u, rest⟩
  · rw [connectH_empty id t s hq]
    refine ⟨?_, ?_, ?_, ?_, ?_, ?_, ?_, ?_, ?_⟩
    · simp
    · intro w hw
      simp at hw
      subst hw
      simp
    · intro w hw
      simp at hw
      subst hw
      simp [mapGet_set]
    · intro w hw
      simp at hw
      subst hw
      simpa using hidp
    · intro a b hab
      rcases hs.peers_conn a b hab with ⟨ha, hb⟩
      exact ⟨List.mem_cons_of_mem _ ha, List.mem_cons_of_mem _ hb⟩
    · exact hs.peers_sym
    · exact ui_key_set hs id t
    · exact conn_ui_set hs id t
    · exact List.nodup_cons.mpr ⟨hid, hs.conn_nodup⟩
  · have hrest : rest = [] := by
      have h1 := hs.queue_len
      rw [hq] at h1
      simpa using h1
    subst hrest
    have humem : u ∈ s.waitingQueue := by
      rw [hq]
      exact List.mem_cons_self u []
    have hcu : u.socketId ∈ s.connected := hs.queue_conn u humem
    have hpu : mapGet s.peers u.socketId = none := hs.queue_unpaired u humem
    rw [connectH_match id t s u [] hq hcu]
    refine ⟨?_, ?_, ?_, ?_, ?_, ?_, ?_, ?_, ?_⟩
    · simp
    · intro w hw
      simp at hw
    · intro w hw
      simp at hw
    · intro w hw
      simp at hw
    · intro a b hab
      have hab' : mapGet (mapSet (mapSet s.peers id u.socketId) u.socketId id) a
          = some b := hab
      rw [mapGet_pair] at hab'
      by_cases h1 : a = u.socketId
      · rw [if_pos h1] at hab'
        injection hab' with hb
        refine ⟨?_, ?_⟩
        · rw [h1]
          exact List.mem_cons_of_mem _ hcu
        · rw [← hb]
          exact List.mem_cons_self _ _
      · rw [if_neg h1] at hab'
        by_cases h2 : a = id
        · rw [if_pos h2] at hab'
          injection hab' with hb
          refine ⟨?_, ?_⟩
          · rw [h2]
            exact List.mem_cons_self _ _
          · rw [← hb]
            exact List.mem_cons_of_mem _ hcu
        · rw [if_neg h2] at hab'
          rcases hs.peers_conn a b hab' with ⟨ha, hb⟩
          exact ⟨List.mem_cons_of_mem _ ha, List.mem_cons_of_mem _ hb⟩
    · exact peersSym_pair hs.peers_sym id u.socketId hidp hpu
    · exact ui_key_set hs id t
    · exact conn_ui_set hs id t
    · exact List.nodup_cons.mpr ⟨hid, hs.conn_nodup⟩

theorem inv_sweep {s : ServerState} (hs : Inv s) (now : Nat) :
    Inv (sweepH now s) := by
  have hsub : ∀ u ∈ (sweepH now s).waitingQueue, u ∈ s.waitingQueue := by
    intro u hu
    simp [sweepH] at hu
    exact hu.1
  refine ⟨?_, ?_, ?_, ?_, ?_, ?_, ?_, ?_, ?_⟩
  · exact le_trans (by simpa [sweepH] using List.length_filter_le _ s.waitingQueue)
      hs.queue_len
  · intro u hu; exact hs.queue_conn u (hsub u hu)
  · intro u hu; exact hs.queue_ui u (hsub u hu)
  · intro u hu; exact hs.queue_unpaired u (hsub u hu)
  · exact hs.peers_conn
  · exact hs.peers_sym
  · exact hs.ui_key
  · exact hs.conn_ui
  · exact hs.conn_nodup

/-- Pairing two live ids keeps the table supported on live sockets. -/
theorem peersConn_pair {m : List (Id × Id)} {conn : List Id}
    (hm : ∀ a b, mapGet m a = some b → a ∈ conn ∧ b ∈ conn)
    (i p : Id) (hiC : i ∈ conn) (hpC : p ∈ conn) :
    ∀ a b, mapGet (mapSet (mapSet m i p) p i) a = some b → a ∈ conn ∧ b ∈ conn := by
  intro a b hab
  rw [mapGet_pair] at hab
  by_cases h1 : a = p
  · rw [if_pos h1] at hab
    injection hab with hb
    exact ⟨by rw [h1]; exact hpC, by rw [← hb]; exact hiC⟩
  · rw [if_neg h1] at hab
    by_cases h2 : a = i
    · rw [if_pos h2] at hab
      injection hab with hb
      exact ⟨by rw [h2]; exact hiC, by rw [← hb]; exact hpC⟩
    · rw [if_neg h2] at hab
      exact hm a b hab

/-- After unpairing, every remaining pairing already existed. -/
theorem peersConn_unpair {s : ServerState} (hs : Inv s) (id cp : Id) :
    ∀ a b, mapGet (mapDel (mapDel s.peers cp) id) a = some b →
      a ∈ s.connected ∧ b ∈ s.connected := by
  intro a b hab
  rw [mapGet_unpair] at hab
  by_cases h1 : a = id
  · rw [if_pos h1] at hab
    cases hab
  rw [if_neg h1] at hab
  by_cases h2 : a = cp
  · rw [if_pos h2] at hab
    cases hab
  rw [if_neg h2] at hab
  exact hs.peers_conn a b hab

/-- Unpairing keeps every queued connection unpaired. -/
theorem queueUnpaired_unpair {s : ServerState} (hs : Inv s) (id cp : Id) :
    ∀ u ∈ s.waitingQueue, mapGet (mapDel (mapDel s.peers cp) id) u.socketId = none := by
  intro u hu
  rw [mapGet_unpair]
  by_cases h1 : u.socketId = id
  · rw [if_pos h1]
  · rw [if_neg h1]
    by_cases h2 : u.socketId = cp
    · rw [if_pos h2]
    · rw [if_neg h2]
      exact hs.queue_unpaired u hu

theorem inv_findNext {s : ServerState} (hs : Inv s) (id : Id) (now : Nat)
    (hid : id ∈ s.connected) : Inv (findNextH id now s) := by
  obtain ⟨user, hui⟩ := hs.conn_ui id hid
  have husock : user.socketId = id := hs.ui_key id user hui
  rcases hp : mapGet s.peers id with _ | cp
  · rcases hq : s.waitingQueue with _ | ⟨u, rest⟩
    · rw [findNextH_unpaired_empty id now s user hp hq hui hid]
      refine ⟨?_, ?_, ?_, ?_, ?_, ?_, ?_, ?_, ?_⟩
      · simp
      · intro w hw
        simp at hw
        subst hw
        rw [husock]
        exact hid
      · intro w hw
        simp at hw
        subst hw
        rw [husock]
        exact hui
      · intro w hw
        simp at hw
        subst hw
        rw [husock]
        exact hp
      · exact hs.peers_conn
      · exact hs.peers_sym
      · exact hs.ui_key
      · exact hs.conn_ui
      · exact hs.conn_nodup
    · have hrest : rest = [] := by
        have h1 := hs.queue_len
        rw [hq] at h1
        simpa using h1
      subst hrest
      have humem : u ∈ s.waitingQueue := by
        rw [hq]
        exact List.mem_cons_self u []
      have hcu : u.socketId ∈ s.connected := hs.queue_conn u humem
      have hpu : mapGet s.peers u.socketId = none := hs.queue_unpaired u humem
      rw [findNextH_unpaired_match id now s u [] hp hq hcu hid]
      refine ⟨?_, ?_, ?_, ?_, ?_, ?_, ?_, ?_, ?_⟩
      · simp
      · intro w hw
        simp at hw
      · intro w hw
        simp at hw
      · intro w hw
        simp at hw
      · exact peersConn_pair hs.peers_conn id u.socketId hid hcu
      · exact peersSym_pair hs.peers_sym id u.socketId hp hpu
      · exact hs.ui_key
      · exact hs.conn_ui
      · exact hs.conn_nodup
  · have hcp : cp ∈ s.connected := (hs.peers_conn id cp hp).2
    have pdsym := peersSym_unpair hs.peers_sym id cp hp
    have pdconn := peersConn_unpair hs id cp
    have pdid : mapGet (mapDel (mapDel s.peers cp) id) id = none := by
      rw [mapGet_unpair, if_pos rfl]
    rcases hq : s.waitingQueue with _ | ⟨u, rest⟩
    · rw [findNextH_paired_empty id now s cp user hp hcp hq hui hid]
      refine ⟨?_, ?_, ?_, ?_, ?_, ?_, ?_, ?_, ?_⟩
      · simp
      · intro w hw
        simp at hw
        subst hw
        rw [husock]
        exact hid
      · intro w hw
        simp at hw
        subst hw
        rw [husock]
        exact hui
      · intro w hw
        simp at hw
        subst hw
        rw [husock]
        exact pdid
      · exact pdconn
      · exact pdsym
      · exact hs.ui_key
      · exact hs.conn_ui
      · exact hs.conn_nodup
    · have hrest : rest = [] := by
        have h1 := hs.queue_len
        rw [hq] at h1
        simpa using h1
      subst hrest
      have humem : u ∈ s.waitingQueue := by
        rw [hq]
        exact List.mem_cons_self u []
      have hcu : u.socketId ∈ s.connected := hs.queue_conn u humem
      have pdu : mapGet (mapDel (mapDel s.peers cp) id) u.socketId = none :=
        queueUnpaired_unpair hs id cp u humem
      rw [findNextH_paired_match id now s cp u [] hp hcp hq hcu hid]
      refine ⟨?_, ?_, ?_, ?_, ?_, ?_, ?_, ?_, ?_⟩
      · simp
      · intro w hw
        simp at hw
      · intro w hw
        simp at hw
      · intro w hw
        simp at hw
      · exact peersConn_pair pdconn id u.socketId hid hcu
      · exact peersSym_pair pdsym id u.socketId pdid pdu
      · exact hs.ui_key
      · exact hs.conn_ui
      · exact hs.conn_nodup

/-- Invariant of the state produced by a disconnect that found a partner. -/
theorem inv_disconnect_core {s : ServerState} (hs : Inv s) (id cp : Id)
    (hp : mapGet s.peers id = some cp) (em : List (Id × ServerEvent)) :
    Inv { waitingQueue := s.waitingQueue.filter (fun u => u.socketId != id),
          peers := mapDel (mapDel s.peers cp) id,
          userInfo := mapDel s.userInfo id,
          connected := s.connected.erase id,
          emitted := em } := by
  refine ⟨?_, ?_, ?_, ?_, ?_, ?_, ?_, ?_, ?_⟩
  · exact le_trans (List.length_filter_le _ _) hs.queue_len
  · intro w hw
    rw [List.mem_filter] at hw
    obtain ⟨hwq, hwne⟩ := hw
    have hne : w.socketId ≠ id := by simpa using hwne
    exact (List.mem_erase_of_ne hne).mpr (hs.queue_conn w hwq)
  · intro w hw
    rw [List.mem_filter] at hw
    obtain ⟨hwq, hwne⟩ := hw
    have hne : w.socketId ≠ id := by simpa using hwne
    show mapGet (mapDel s.userInfo id) w.socketId = some w
    rw [mapGet_del, if_neg hne]
    exact hs.queue_ui w hwq
  · intro w hw
    rw [List.mem_filter] at hw
    exact queueUnpaired_unpair hs id cp w hw.1
  · intro a b hab
    have hab' : mapGet (mapDel (mapDel s.peers cp) id) a = some b := hab
    rw [mapGet_unpair] at hab'
    by_cases h1 : a = id
    · rw [if_pos h1] at hab'
      cases hab'
    rw [if_neg h1] at hab'
    by_cases h2 : a = cp
    · rw [if_pos h2] at hab'
      cases hab'
    rw [if_neg h2] at hab'
    rcases hs.peers_conn a b hab' with ⟨ha, hb⟩
    have hbne : b ≠ id := by
      intro hbid
      rw [hbid] at hab'
      have h3 := hs.peers_sym a id hab'
      rw [hp] at h3
      exact h2 (Option.some.inj h3).symm
    exact ⟨(List.mem_erase_of_ne h1).mpr ha, (List.mem_erase_of_ne hbne).mpr hb⟩
  · exact peersSym_unpair hs.peers_sym id cp hp
  · intro i w hi
    have hi' : mapGet (mapDel s.userInfo id) i = some w := hi
    rw [mapGet_del] at hi'
    by_cases h1 : i = id
    · rw [if_pos h1] at hi'
      cases hi'
    · rw [if_neg h1] at hi'
      exact hs.ui_key i w hi'
  · intro i hi
    have hi' : i ∈ s.connected.erase id := hi
    rw [hs.conn_nodup.mem_erase_iff] at hi'
    obtain ⟨hine, hic⟩ := hi'
    obtain ⟨w, hw⟩ := hs.conn_ui i hic
    refine ⟨w, ?_⟩
    show mapGet (mapDel s.userInfo id) i = some w
    rw [mapGet_del, if_neg hine]
    exact hw
  · exact hs.conn_nodup.erase id

/-- Invariant of the state produced by a disconnect with no partner. -/
theorem inv_disconnect_unpaired_core {s : ServerState} (hs : Inv s) (id : Id)
    (hp : mapGet s.peers id = none) :
    Inv { waitingQueue := s.waitingQueue.filter (fun u => u.socketId != id),
          peers := s.peers,
          userInfo := mapDel s.userInfo id,
          connected := s.connected.erase id,
          emitted := s.emitted } := by
  refine ⟨?_, ?_, ?_, ?_, ?_, ?_, ?_, ?_, ?_⟩
  · exact le_trans (List.length_filter_le _ _) hs.queue_len
  · intro w hw
    rw [List.mem_filter] at hw
    obtain ⟨hwq, hwne⟩ := hw
    have hne : w.socketId ≠ id := by simpa using hwne
    exact (List.mem_erase_of_ne hne).mpr (hs.queue_conn w hwq)
  · intro w hw
    rw [List.mem_filter] at hw
    obtain ⟨hwq, hwne⟩ := hw
    have hne : w.socketId ≠ id := by simpa using hwne
    show mapGet (mapDel s.userInfo id) w.socketId = some w
    rw [mapGet_del, if_neg hne]
    exact hs.queue_ui w hwq
  · intro w hw
    rw [List.mem_filter] at hw
    exact hs.queue_unpaired w hw.1
  · intro a b hab
    rcases hs.peers_conn a b hab with ⟨ha, hb⟩
    have hane : a ≠ id := by
      intro h
      rw [h, hp] at hab
      cases hab
    have hbne : b ≠ id := by
      intro h
      rw [h] at hab
      have h3 := hs.peers_sym a id hab
      rw [hp] at h3
      cases h3
    exact ⟨(List.mem_erase_of_ne hane).mpr ha, (List.mem_erase_of_ne hbne).mpr hb⟩
  · exact hs.peers_sym
  · intro i w hi
    have hi' : mapGet (mapDel s.userInfo id) i = some w := hi
    rw [mapGet_del] at hi'
    by_cases h1 : i = id
    · rw [if_pos h1] at hi'
      cases hi'
    · rw [if_neg h1] at hi'
      exact hs.ui_key i w hi'
  · intro i hi
    have hi' : i ∈ s.connected.erase id := hi
    rw [hs.conn_nodup.mem_erase_iff] at hi'
    obtain ⟨hine, hic⟩ := hi'
    obtain ⟨w, hw⟩ := hs.conn_ui i hic
    refine ⟨w, ?_⟩
    show mapGet (mapDel s.userInfo id) i = some w
    rw [mapGet_del, if_neg hine]
    exact hw
  · exact hs.conn_nodup.erase id

theorem inv_disconnect {s : ServerState} (hs : Inv s) (id : Id)
    (hid : id ∈ s.connected) : Inv (disconnectH id s) := by
  rcases hp : mapGet s.peers id with _ | cp
  · rw [disconnectH_unpaired id s hp]
    exact inv_disconnect_unpaired_core hs id hp
  · by_cases hcpe : cp ∈ s.connected.erase id
    · rw [disconnectH_paired_live id s cp hp hcpe]
      exact inv_disconnect_core hs id cp hp _
    · rw [disconnectH_paired_dead id s cp hp hcpe]
      exact inv_disconnect_core hs id cp hp _

/-- Every reachable state satisfies the invariant. -/
theorem inv_reachable {s : ServerState} (h : Reachable s) : Inv s := by
  induction h with
  | init => exact inv_init
  | connect h id t hid ih => exact inv_connect ih id t hid
  | signal h id p hid ih => exact inv_signal ih id p
  | findNext h id now hid ih => exact inv_findNext ih id now hid
  | disconnect h id hid ih => exact inv_disconnect ih id hid
  | sweep h now ih => exact inv_sweep ih now

/-! ### Concrete reachable states used as witnesses -/

/-- One connection (id 1, joined at 0), waiting in the queue. -/
def s1 : ServerState := connectH 1 0 initState

/-- A second connection (id 2) arrives and is paired with 1. -/
def s2 : ServerState := connectH 2 5 s1

/-- Connection 1, alone in the queue, sends find-next (self-match state). -/
def s3 : ServerState := findNextH 1 50 s1

/-- Connection 1 skips its partner at time 360000 and is re-enqueued. -/
def s4 : ServerState := findNextH 1 360000 s2

/-- A third connection joins while 1 and 2 are paired, and is queued. -/
def s5 : ServerState := connectH 3 7 s2

theorem reachable_s1 : Reachable s1 :=
  Reachable.connect Reachable.init 1 0 (by decide)

theorem reachable_s2 : Reachable s2 :=
  Reachable.connect reachable_s1 2 5 (by decide)

theorem reachable_s3 : Reachable s3 :=
  Reachable.findNext reachable_s1 1 50 (by decide)

theorem reachable_s4 : Reachable s4 :=
  Reachable.findNext reachable_s2 1 360000 (by decide)

theorem reachable_s5 : Reachable s5 :=
  Reachable.connect reachable_s2 3 7 (by decide)

/-! ### Further helper lemmas -/

/-- Filtering for an id after filtering it away yields nothing. -/
theorem count_of_filter_ne (q : List User) (id : Id) :
    (q.filter (fun u => u.socketId != id)).filter (fun u => u.socketId == id) = [] := by
  induction q with
  | nil => rfl
  | cons a q ih =>
    by_cases h : a.socketId = id <;> simp [List.filter_cons, h, ih]

/-- The disconnect handler always filters the queue by the leaving id. -/
theorem disconnectH_queue (id : Id) (s : ServerState) :
    (disconnectH id s).waitingQueue =
      s.waitingQueue.filter (fun u => u.socketId != id) := by
  rcases hp : mapGet s.peers id with _ | cp
  · rw [disconnectH_unpaired id s hp]
  · by_cases hcpe : cp ∈ s.connected.erase id
    · rw [disconnectH_paired_live id s cp hp hcpe]
    · rw [disconnectH_paired_dead id s cp hp hcpe]

/-! ### The claims -/

/-- C1: at every reachable state, each connection id is in exactly one of the
three states — not present, QUEUED (exactly one queue entry and no pairing),
or PAIRED (a pairing and no queue entry); in particular it never holds a
queue entry and a pairing simultaneously, nor two queue entries. -/
theorem c1_state_exclusivity {s : ServerState} (h : Reachable s) (id : Id) :
    (queuedCount s id = 0 ∧ mapGet s.peers id = none) ∨
    (queuedCount s id = 1 ∧ mapGet s.peers id = none) ∨
    (queuedCount s id = 0 ∧ (mapGet s.peers id).isSome) := by
  have hs := inv_reachable h
  rcases hp : mapGet s.peers id with _ | cp
  · have hc : queuedCount s id ≤ 1 :=
      le_trans (List.length_filter_le _ _) hs.queue_len
    rcases Nat.lt_or_ge (queuedCount s id) 1 with h1 | h1
    · exact Or.inl ⟨Nat.lt_one_iff.mp h1, rfl⟩
    · exact Or.inr (Or.inl ⟨le_antisymm hc h1, rfl⟩)
  · refine Or.inr (Or.inr ⟨?_, rfl⟩)
    by_contra hnz
    have hex : ∃ u ∈ s.waitingQueue, u.socketId = id := by
      rcases hfe : s.waitingQueue.filter (fun u => u.socketId == id) with _ | ⟨w, rest⟩
      · exact absurd (by simp [queuedCount, hfe]) hnz
      · have hw : w ∈ s.waitingQueue.filter (fun u => u.socketId == id) := by
          rw [hfe]
          exact List.mem_cons_self _ _
        rw [List.mem_filter] at hw
        exact ⟨w, hw.1, by simpa using hw.2⟩
    obtain ⟨u, hu, husock⟩ := hex
    have hun := hs.queue_unpaired u hu
    rw [husock, hp] at hun
    cases hun

/-- Witness for C1 at the concrete reachable state `s1`. -/
theorem c1_state_exclusivity_witness :
    (queuedCount s1 1 = 0 ∧ mapGet s1.peers 1 = none) ∨
    (queuedCount s1 1 = 1 ∧ mapGet s1.peers 1 = none) ∨
    (queuedCount s1 1 = 0 ∧ (mapGet s1.peers 1).isSome) :=
  c1_state_exclusivity reachable_s1 1

/-- C2: contrary to the claim, find-next while QUEUED and unpaired is not a
no-op: evaluated at the failing input (connection 1 queued alone sending
find-next), the connection is dequeued and paired with itself. -/
theorem c2_skip_while_queued_self_matches :
    queuedCount s1 1 = 1 ∧ mapGet s1.peers 1 = none ∧
    queuedCount (findNextH 1 50 s1) 1 = 0 ∧
    mapGet (findNextH 1 50 s1).peers 1 = some 1 := by
  decide

/-- C3: the waiting queue is strict FIFO — `findMatch` returns `none` on an
empty queue and otherwise removes and returns the earliest-enqueued (head)
entry; waiters enqueued in order w1, w2, w3 are dequeued in that order. -/
theorem c3_fifo_dequeue (cur : Id) (w1 w2 w3 : User) (rest : List User) :
    findMatch cur ([] : List User) = none ∧
    findMatch cur (w1 :: rest) = some (w1, rest) ∧
    enqueue w3 (enqueue w2 (enqueue w1 [])) = [w1, w2, w3] ∧
    findMatch cur [w1, w2, w3] = some (w1, [w2, w3]) ∧
    findMatch cur [w2, w3] = some (w2, [w3]) ∧
    findMatch cur [w3] = some (w3, []) :=
  ⟨rfl, rfl, by simp [enqueue], rfl, rfl, rfl⟩

/-- C4: in every match created by the matching policy — on connect and on
find-next — the dequeued waiter receives `match-found` with
`isInitiator = true` and the requesting connection receives `match-found`
with `isInitiator = false`. -/
theorem c4_initiator_roles :
    (∀ s id t u rest, Reachable s → id ∉ s.connected →
      s.waitingQueue = u :: rest →
      (connectH id t s).emitted = s.emitted ++
        [(u.socketId, ServerEvent.matchFound id true),
         (id, ServerEvent.matchFound u.socketId false)]) ∧
    (∀ s id now u rest, Reachable s → id ∈ s.connected →
      s.waitingQueue = u :: rest →
      (findNextH id now s).emitted = s.emitted ++
        (match mapGet s.peers id with
         | some cp => [(cp, ServerEvent.peerDisconnected)]
         | none => []) ++
        [(u.socketId, ServerEvent.matchFound id true),
         (id, ServerEvent.matchFound u.socketId false)]) := by
  constructor
  · intro s id t u rest h hid hq
    have hs := inv_reachable h
    have hcu : u.socketId ∈ s.connected :=
      hs.queue_conn u (by rw [hq]; exact List.mem_cons_self _ _)
    rw [connectH_match id t s u rest hq hcu]
  · intro s id now u rest h hid hq
    have hs := inv_reachable h
    have hcu : u.socketId ∈ s.connected :=
      hs.queue_conn u (by rw [hq]; exact List.mem_cons_self _ _)
    rcases hp : mapGet s.peers id with _ | cp
    · rw [findNextH_unpaired_match id now s u rest hp hq hcu hid]
      simp
    · have hcp : cp ∈ s.connected := (hs.peers_conn id cp hp).2
      rw [findNextH_paired_match id now s cp u rest hp hcp hq hcu hid]
      simp

/-- Witness for C4: the connect-path match in `s2` and the find-next-path
match when 1 skips its partner in `s5`. -/
theorem c4_initiator_roles_witness :
    ((connectH 2 5 s1).emitted = s1.emitted ++
      [(1, ServerEvent.matchFound 2 true),
       (2, ServerEvent.matchFound 1 false)]) ∧
    ((findNextH 1 9 s5).emitted = s5.emitted ++
      [(2, ServerEvent.peerDisconnected),
       (3, ServerEvent.matchFound 1 true),
       (1, ServerEvent.matchFound 3 false)]) := by
  constructor
  · exact c4_initiator_roles.1 s1 2 5 { socketId := 1, joinedAt := 0 } []
      reachable_s1 (by decide) (by decide)
  · have h := c4_initiator_roles.2 s5 1 9 { socketId := 3, joinedAt := 7 } []
      reachable_s5 (by decide) (by decide)
    simpa using h

/-- C5: pairing is symmetric at every reachable state: whenever
`partnerOf(a) = b` with both sides live, `partnerOf(b) = a`. -/
theorem c5_pairing_symmetric {s : ServerState} (h : Reachable s) (a b : Id)
    (hab : mapGet s.peers a = some b) (ha : a ∈ s.connected)
    (hb : b ∈ s.connected) : mapGet s.peers b = some a :=
  (inv_reachable h).peers_sym a b hab

/-- Witness for C5 in the paired state `s2`. -/
theorem c5_pairing_symmetric_witness : mapGet s2.peers 1 = some 2 :=
  c5_pairing_symmetric reachable_s2 2 1 (by decide) (by decide) (by decide)

/-- C6: a signal from a live sender produces the NoActivePeer error event
back to the sender exactly when the sender has no partner or the partner is
not live; otherwise the single emission is the identical payload delivered
to the partner (nothing is sent back to the sender); moreover, at reachable
states a present partner is always live. -/
theorem c6_signal_relay {s : ServerState} (h : Reachable s) (id : Id)
    (p : Payload) (hid : id ∈ s.connected) :
    (mapGet s.peers id = none →
      (signalH id p s).emitted = s.emitted ++
        [(id, ServerEvent.errorMsg "No active peer connection")]) ∧
    (∀ cp, mapGet s.peers id = some cp → cp ∉ s.connected →
      (signalH id p s).emitted = s.emitted ++
        [(id, ServerEvent.errorMsg "No active peer connection")]) ∧
    (∀ cp, mapGet s.peers id = some cp → cp ∈ s.connected →
      (signalH id p s).emitted = s.emitted ++ [(cp, ServerEvent.signal p)]) ∧
    (∀ cp, mapGet s.peers id = some cp → cp ∈ s.connected) := by
  refine ⟨?_, ?_, ?_, ?_⟩
  · intro hp
    rw [signalH_none id p s hp hid]
  · intro cp hp hcp
    rw [signalH_dead id p s cp hp hcp hid]
  · intro cp hp hcp
    rw [signalH_live id p s cp hp hcp]
  · intro cp hp
    exact ((inv_reachable h).peers_conn id cp hp).2

/-- Witness for C6: relaying payload 7 from 1 to its partner 2 in `s2`. -/
theorem c6_signal_relay_witness :
    (signalH 1 7 s2).emitted = s2.emitted ++ [(2, ServerEvent.signal 7)] :=
  (c6_signal_relay reachable_s2 1 7 (by decide)).2.2.1 2 (by decide) (by decide)

/-- C7 counterexample: in the reachable state `s3` connection 1 is paired
with itself; on its disconnect a former partner exists, yet no
`peer-disconnected` event is delivered to it. -/
theorem c7_counterexample_self_pair :
    Reachable s3 ∧ mapGet s3.peers 1 = some 1 ∧
    (disconnectH 1 s3).emitted = s3.emitted :=
  ⟨reachable_s3, by decide, by decide⟩

/-- C7 (amended): after the disconnect handler completes, the connection
holds no queue entry and no pairing; when the former partner is a different
connection it receives exactly one `peer-disconnected` event, is unpaired,
and is not re-enqueued; with no partner nothing is emitted. -/
theorem c7_disconnect_cleanup {s : ServerState} (h : Reachable s) (id : Id)
    (hid : id ∈ s.connected) :
    queuedCount (disconnectH id s) id = 0 ∧
    mapGet (disconnectH id s).peers id = none ∧
    (mapGet s.peers id = none → (disconnectH id s).emitted = s.emitted) ∧
    (∀ cp, mapGet s.peers id = some cp → cp ≠ id →
      (disconnectH id s).emitted =
        s.emitted ++ [(cp, ServerEvent.peerDisconnected)] ∧
      mapGet (disconnectH id s).peers cp = none ∧
      queuedCount (disconnectH id s) cp = 0) := by
  have hs := inv_reachable h
  refine ⟨?_, ?_, ?_, ?_⟩
  · show ((disconnectH id s).waitingQueue.filter (fun u => u.socketId == id)).length = 0
    rw [disconnectH_queue, count_of_filter_ne]
    rfl
  · rcases hp : mapGet s.peers id with _ | cp
    · rw [disconnectH_unpaired id s hp]
      exact hp
    · by_cases hcpe : cp ∈ s.connected.erase id
      · rw [disconnectH_paired_live id s cp hp hcpe]
        show mapGet (mapDel (mapDel s.peers cp) id) id = none
        rw [mapGet_unpair, if_pos rfl]
      · rw [disconnectH_paired_dead id s cp hp hcpe]
        show mapGet (mapDel (mapDel s.peers cp) id) id = none
        rw [mapGet_unpair, if_pos rfl]
  · intro hp
    rw [disconnectH_unpaired id s hp]
  · intro cp hp hcpne
    have hcp : cp ∈ s.connected := (hs.peers_conn id cp hp).2
    have hcpe : cp ∈ s.connected.erase id := (List.mem_erase_of_ne hcpne).mpr hcp
    have hpcp : mapGet s.peers cp = some id := hs.peers_sym id cp hp
    rw [disconnectH_paired_live id s cp hp hcpe]
    refine ⟨rfl, ?_, ?_⟩
    · show mapGet (mapDel (mapDel s.peers cp) id) cp = none
      rw [mapGet_unpair, if_neg hcpne, if_pos rfl]
    · show ((s.waitingQueue.filter (fun u => u.socketId != id)).filter
        (fun u => u.socketId == cp)).length = 0
      rw [List.length_eq_zero, List.filter_eq_nil_iff]
      intro u hu
      rw [List.mem_filter] at hu
      have hun := hs.queue_unpaired u hu.1
      simp only [beq_iff_eq]
      intro heq
      rw [heq, hpcp] at hun
      cases hun

/-- Witness for C7 (amended): 1 disconnects from its partner 2 in `s2`. -/
theorem c7_disconnect_cleanup_witness :
    queuedCount (disconnectH 1 s2) 1 = 0 ∧
    mapGet (disconnectH 1 s2).peers 1 = none ∧
    (disconnectH 1 s2).emitted =
      s2.emitted ++ [(2, ServerEvent.peerDisconnected)] ∧
    mapGet (disconnectH 1 s2).peers 2 = none ∧
    queuedCount (disconnectH 1 s2) 2 = 0 := by
  have h := c7_disconnect_cleanup reachable_s2 1 (by decide)
  have h4 := h.2.2.2 2 (by decide) (by decide)
  exact ⟨h.1, h.2.1, h4.1, h4.2.1, h4.2.2⟩

/-- C8 counterexample: in the reachable state `s4`, connection 1 (joined at
time 0) was re-enqueued by find-next at time 360000, yet its queue entry
records time 0, and the sweep at time 360001 — only 1 ms after the enqueue,
far below `maxAge` — removes it. -/
theorem c8_counterexample_requeue_swept :
    Reachable s4 ∧
    s4.waitingQueue = [{ socketId := 1, joinedAt := 0 }] ∧
    (sweepH 360001 s4).waitingQueue = [] ∧
    360001 - 360000 ≤ QUEUE_TIMEOUT :=
  ⟨reachable_s4, by decide, by decide, by decide⟩

/-- C8 (amended): every queue entry carries its connection's join timestamp;
the sweep (period 60 s, max age 5 min) keeps exactly the entries whose
recorded timestamp is within `maxAge` of the sweep time; an entry enqueued
at connect records the connect time, while a find-next re-enqueue re-uses
the user object captured at connect — keeping the original join time
regardless of when the find-next happens. -/
theorem c8_sweep_by_join_time :
    QUEUE_TIMEOUT = 5 * 60 * 1000 ∧ SWEEP_INTERVAL = 60000 ∧
    (∀ now s (u : User), u ∈ (sweepH now s).waitingQueue ↔
      (u ∈ s.waitingQueue ∧ now - u.joinedAt ≤ QUEUE_TIMEOUT)) ∧
    (∀ s id t, s.waitingQueue = [] →
      (connectH id t s).waitingQueue = [{ socketId := id, joinedAt := t }]) ∧
    (∀ s id now user, id ∈ s.connected → mapGet s.peers id = none →
      s.waitingQueue = [] → mapGet s.userInfo id = some user →
      (findNextH id now s).waitingQueue = [user]) := by
  refine ⟨rfl, rfl, ?_, ?_, ?_⟩
  · intro now s u
    simp [sweepH, List.mem_filter, not_lt]
  · intro s id t hq
    rw [connectH_empty id t s hq]
  · intro s id now user hid hp hq hui
    rw [findNextH_unpaired_empty id now s user hp hq hui hid]

/-- A minimal state with connection 1 registered, unpaired and unqueued. -/
def s6 : ServerState :=
  { waitingQueue := [], peers := [],
    userInfo := [(1, { socketId := 1, joinedAt := 0 })],
    connected := [1], emitted := [] }

/-- Witness for C8 (amended): a re-enqueue at time 360000 stores the user
object with its original join time 0. -/
theorem c8_sweep_by_join_time_witness :
    (findNextH 1 360000 s6).waitingQueue = [{ socketId := 1, joinedAt := 0 }] :=
  c8_sweep_by_join_time.2.2.2.2 s6 1 360000 { socketId := 1, joinedAt := 0 }
    (by decide) (by decide) (by decide) (by decide)

/-- C9 counterexample: the enqueue operation has no AlreadyQueued guard —
pushing a connection that already holds a queue entry appends a second entry
instead of rejecting the operation and leaving the queue unchanged. -/
theorem c9_counterexample_enqueue_unchecked :
    enqueue { socketId := 1, joinedAt := 0 } [{ socketId := 1, joinedAt := 0 }] =
      [{ socketId := 1, joinedAt := 0 }, { socketId := 1, joinedAt := 0 }] := by
  decide

/-- C9 (amended): the code performs no AlreadyQueued check, but in every
reachable state the handlers push only onto an empty queue, so the waiting
queue never holds more than one entry and a duplicate enqueue never
occurs. -/
theorem c9_queue_never_duplicated {s : ServerState} (h : Reachable s) :
    s.waitingQueue.length ≤ 1 :=
  (inv_reachable h).queue_len

/-- Witness for C9 (amended) at the concrete reachable state `s1`. -/
theorem c9_queue_never_duplicated_witness : s1.waitingQueue.length ≤ 1 :=
  c9_queue_never_duplicated reachable_s1

/-- C10: a connection that is the sole entry of the waiting queue and sends
find-next dequeues itself, is recorded as its own partner, and receives two
`match-found` events — one with `isInitiator = true` and one with
`isInitiator = false`. -/
theorem c10_sole_waiter_self_match {s : ServerState} (h : Reachable s)
    (id : Id) (now : Nat) (u : User) (hid : id ∈ s.connected)
    (hq : s.waitingQueue = [u]) (hu : u.socketId = id) :
    mapGet (findNextH id now s).peers id = some id ∧
    (findNextH id now s).waitingQueue = [] ∧
    (findNextH id now s).emitted = s.emitted ++
      [(id, ServerEvent.matchFound id true),
       (id, ServerEvent.matchFound id false)] := by
  have hs := inv_reachable h
  have humem : u ∈ s.waitingQueue := by
    rw [hq]
    exact List.mem_cons_self _ _
  have hp : mapGet s.peers id = none := by
    have hup := hs.queue_unpaired u humem
    rwa [hu] at hup
  have hcu : u.socketId ∈ s.connected := by
    rw [hu]
    exact hid
  rw [findNextH_unpaired_match id now s u [] hp hq hcu hid]
  refine ⟨?_, rfl, ?_⟩
  · show mapGet (mapSet (mapSet s.peers id u.socketId) u.socketId id) id = some id
    rw [hu, mapGet_pair, if_pos rfl]
  · show s.emitted ++ [(u.socketId, ServerEvent.matchFound id true),
      (id, ServerEvent.matchFound u.socketId false)] = _
    rw [hu]

/-- Witness for C10: connection 1, sole waiter in `s1`, self-matches. -/
theorem c10_sole_waiter_self_match_witness :
    mapGet (findNextH 1 50 s1).peers 1 = some 1 ∧
    (findNextH 1 50 s1).waitingQueue = [] ∧
    (findNextH 1 50 s1).emitted = s1.emitted ++
      [(1, ServerEvent.matchFound 1 true),
       (1, ServerEvent.matchFound 1 false)] :=
  c10_sole_waiter_self_match reachable_s1 1 50 { socketId := 1, joinedAt := 0 }
    (by decide) (by decide) (by decide)

end Anologia
